import Mathlib

/-!
Shallow embedding of the scoring and ranking engine of the cf-benchmark
repository (apps/api/src/scoring.ts) together with the season aggregation
loop of the `/summary` route (apps/api/src/server.ts).

Modelling conventions:
* A TypeScript `number` is modelled as `Int`.  The zod write schema
  constrains `timeSeconds`, `reps` and `tiebreakSecs` to integers; the
  only operations the engine performs on any score field (including
  `loadKg`) are subtraction and sign/equality tests, which behave
  identically over any ordered ring, so the integer model is faithful
  for every comparison the code makes.
* A field of type `number | null | undefined` is modelled as `Option Int`;
  the source's `normalize` maps `undefined` to `null`, so both absent
  states collapse to `none`.
* JavaScript arithmetic coerces `null` to `0` (`ToNumber(null) = 0`), so
  `na.timeSeconds! - nb.timeSeconds!` on possibly-null operands is
  modelled as subtraction after `Option.getD 0`.
* `Number.MAX_SAFE_INTEGER` is the constant `9007199254740991`.
* `Array.prototype.sort` with a comparator is a stable sort ordered by
  `compare(x, y) <= 0`; it is modelled by `List.mergeSort` with the
  boolean relation `compareScores t x y ≤ 0`.
-/

namespace CFBench

open scoped List

/-- The `ScoreType` enumeration from the Prisma schema. -/
inductive ScoreType where
  | TIME
  | REPS
  | LOAD
  | TIME_REPS
deriving DecidableEq, Repr

/-- The `NormalizedScore` record type of scoring.ts: four optional numeric
fields.  `none` stands for both `null` and `undefined`. -/
structure NormalizedScore where
  timeSeconds : Option Int := none
  reps : Option Int := none
  loadKg : Option Int := none
  tiebreakSecs : Option Int := none
deriving DecidableEq, Repr

/-- `Number.MAX_SAFE_INTEGER`. -/
def MAX_SAFE_INTEGER : Int := 9007199254740991

/-- JavaScript `ToNumber` coercion applied to a `number | null` operand of
an arithmetic operator: `null` coerces to `0`. -/
def jsNum (x : Option Int) : Int := x.getD 0

/-- `assertScoreMatchesType` from scoring.ts.  The source throws an
`Error` with a message; we model it as `Except String Unit` carrying the
same message.  `typeof s.f === "number"` is `isSome` on the option field. -/
def assertScoreMatchesType (scoreType : ScoreType) (s : NormalizedScore) :
    Except String Unit :=
  let hasTime := s.timeSeconds.isSome
  let hasReps := s.reps.isSome
  let hasLoad := s.loadKg.isSome
  match scoreType with
  | .TIME => if !hasTime then .error "TIME krever timeSeconds" else .ok ()
  | .REPS => if !hasReps then .error "REPS krever reps" else .ok ()
  | .LOAD => if !hasLoad then .error "LOAD krever loadKg" else .ok ()
  | .TIME_REPS => if !hasReps then .error "TIME_REPS krever reps" else .ok ()

/-- `compareScores` from scoring.ts.  After `normalize`, absent fields are
`null`; JavaScript subtraction then coerces `null` to `0` (`jsNum`), and
the `??` fallback in the TIME_REPS branch substitutes
`Number.MAX_SAFE_INTEGER` for a missing time. -/
def compareScores (scoreType : ScoreType) (a b : NormalizedScore) : Int :=
  match scoreType with
  | .TIME => jsNum a.timeSeconds - jsNum b.timeSeconds
  | .REPS => jsNum b.reps - jsNum a.reps
  | .LOAD => jsNum b.loadKg - jsNum a.loadKg
  | .TIME_REPS =>
    let repsDiff := jsNum b.reps - jsNum a.reps
    if repsDiff ≠ 0 then repsDiff
    else
      let ta := a.timeSeconds.getD MAX_SAFE_INTEGER
      let tb := b.timeSeconds.getD MAX_SAFE_INTEGER
      ta - tb

/-- `computeBenchmarkBeatenCount` from scoring.ts: the `for` loop over the
benchmark entries accumulating `beaten`. -/
def computeBenchmarkBeatenCount (scoreType : ScoreType)
    (userScore : NormalizedScore) (benchmarkScores : List NormalizedScore) : Nat :=
  benchmarkScores.foldl
    (fun beaten bs => if compareScores scoreType userScore bs < 0 then beaten + 1 else beaten)
    0

/-- `isSameScore` from scoring.ts: field-by-field equality after `?? null`
normalisation (already folded into `Option`). -/
def isSameScore (a b : NormalizedScore) : Bool :=
  a.timeSeconds == b.timeSeconds &&
  a.reps == b.reps &&
  a.loadKg == b.loadKg &&
  a.tiebreakSecs == b.tiebreakSecs

/-- The boolean sort relation induced by the comparator, matching the
ECMAScript specification of `Array.prototype.sort` with a consistent
comparator: `x` sorts no later than `y` iff `compare(x, y) <= 0`. -/
def scoreLe (scoreType : ScoreType) (x y : NormalizedScore) : Bool :=
  compareScores scoreType x y ≤ 0

/-- `computeRankAmongBenchmarkPlusUser` from scoring.ts: append the user
score, sort (stably) by the comparator, locate the first entry that
`isSameScore`s the user, and return its 1-based index, falling back to the
merged length when no entry matches. -/
def computeRankAmongBenchmarkPlusUser (scoreType : ScoreType)
    (userScore : NormalizedScore) (benchmarkScores : List NormalizedScore) : Nat :=
  let all := (benchmarkScores ++ [userScore]).mergeSort (scoreLe scoreType)
  match all.findIdx? (fun s => isSameScore s userScore) with
  | none => all.length
  | some idx => idx + 1

/-- `pointsFromRank` from scoring.ts. -/
def pointsFromRank (rank : Int) : Int :=
  if rank < 1 then 0
  else if rank > 40 then 0
  else 41 - rank

/-- A workout row as selected by the `/summary` route: its id and score
type. -/
structure WorkoutMeta where
  id : String
  scoreType : ScoreType
deriving DecidableEq, Repr

/-- A stored `UserResult` row as consumed by the `/summary` route: the
workout it belongs to and its score fields. -/
structure UserResult where
  workoutId : String
  score : NormalizedScore
deriving DecidableEq, Repr

/-- One element of the `perWorkout` output array of the `/summary` route. -/
structure PerWorkoutEntry where
  workoutId : String
  points : Int
  beatenCount : Nat
  rank : Nat
deriving DecidableEq, Repr

/-- The scoring-relevant part of the `/summary` response. -/
structure SeasonSummary where
  completedWorkouts : Nat
  totalPoints : Int
  perWorkout : List PerWorkoutEntry
deriving DecidableEq, Repr

/-- One iteration of the `for (const w of workouts)` loop in the
`/summary` handler: skip the workout when the user has no result row for
it, otherwise compute beaten count, rank and points against the workout's
benchmark and accumulate. -/
def summaryStep (userResults : List UserResult)
    (benchmarkByWorkout : String → List NormalizedScore)
    (acc : Int × List PerWorkoutEntry) (w : WorkoutMeta) :
    Int × List PerWorkoutEntry :=
  match userResults.find? (fun r => r.workoutId == w.id) with
  | none => acc
  | some ur =>
    let benchmark := benchmarkByWorkout w.id
    let beaten := computeBenchmarkBeatenCount w.scoreType ur.score benchmark
    let rank := computeRankAmongBenchmarkPlusUser w.scoreType ur.score benchmark
    let points := pointsFromRank (rank : Int)
    (acc.1 + points, acc.2 ++ [⟨w.id, points, beaten, rank⟩])

/-- The `/summary` aggregation of server.ts: fold the loop body over the
workouts in scope, starting from `totalPoints = 0` and an empty
`perWorkout`, and report `completedWorkouts = perWorkout.length`. -/
def summarizeSeason (workouts : List WorkoutMeta) (userResults : List UserResult)
    (benchmarkByWorkout : String → List NormalizedScore) : SeasonSummary :=
  let res := workouts.foldl (summaryStep userResults benchmarkByWorkout) (0, [])
  { completedWorkouts := res.2.length, totalPoints := res.1, perWorkout := res.2 }

/-! ### Basic facts about the comparator and score equality -/

/-- Score equality used by the rank lookup is structural equality. -/
theorem isSameScore_iff {a b : NormalizedScore} : isSameScore a b = true ↔ a = b := by
  cases a; cases b
  simp [isSameScore, NormalizedScore.mk.injEq, and_assoc]

/-- Every score is the same score as itself. -/
theorem isSameScore_rfl (a : NormalizedScore) : isSameScore a a = true :=
  isSameScore_iff.mpr rfl

/-- Swapping the comparator's arguments negates its result. -/
theorem compareScores_neg (t : ScoreType) (a b : NormalizedScore) :
    compareScores t a b = - compareScores t b a := by
  cases t with
  | TIME => simp only [compareScores]; omega
  | REPS => simp only [compareScores]; omega
  | LOAD => simp only [compareScores]; omega
  | TIME_REPS =>
    simp only [compareScores]
    split_ifs <;> omega

/-- The comparator ties every score with itself. -/
theorem compareScores_self (t : ScoreType) (a : NormalizedScore) :
    compareScores t a a = 0 := by
  cases t with
  | TIME => simp only [compareScores]; omega
  | REPS => simp only [compareScores]; omega
  | LOAD => simp only [compareScores]; omega
  | TIME_REPS =>
    simp only [compareScores]
    split_ifs <;> omega

/-- The sort relation is total. -/
theorem scoreLe_total (t : ScoreType) (a b : NormalizedScore) :
    scoreLe t a b || scoreLe t b a := by
  have h := compareScores_neg t a b
  simp only [scoreLe, Bool.or_eq_true, decide_eq_true_eq]
  omega

/-- The sort relation is transitive. -/
theorem scoreLe_trans (t : ScoreType) (a b c : NormalizedScore)
    (hab : scoreLe t a b) (hbc : scoreLe t b c) : scoreLe t a c := by
  simp only [scoreLe, decide_eq_true_eq] at hab hbc ⊢
  cases t with
  | TIME => simp only [compareScores] at *; omega
  | REPS => simp only [compareScores] at *; omega
  | LOAD => simp only [compareScores] at *; omega
  | TIME_REPS =>
    simp only [compareScores] at *
    split_ifs at hab hbc ⊢ <;> omega

/-- Strictly-better is transported along strictly-better: the strict part
of the comparator order is transitive. -/
theorem compareScores_lt_trans (t : ScoreType) {a b c : NormalizedScore}
    (hab : compareScores t a b < 0) (hbc : compareScores t b c < 0) :
    compareScores t a c < 0 := by
  cases t with
  | TIME => simp only [compareScores] at *; omega
  | REPS => simp only [compareScores] at *; omega
  | LOAD => simp only [compareScores] at *; omega
  | TIME_REPS =>
    simp only [compareScores] at *
    split_ifs at hab hbc ⊢ <;> omega

/-- The beaten-count loop, started from an arbitrary accumulator, adds the
number of strictly-beaten entries. -/
theorem beaten_foldl (t : ScoreType) (u : NormalizedScore)
    (bs : List NormalizedScore) (n : Nat) :
    bs.foldl (fun beaten e => if compareScores t u e < 0 then beaten + 1 else beaten) n
      = n + bs.countP (fun e => decide (compareScores t u e < 0)) := by
  induction bs generalizing n with
  | nil => simp
  | cons e es ih =>
    simp only [List.foldl_cons, List.countP_cons, ih, decide_eq_true_eq]
    split_ifs <;> omega

/-- The beaten count is the number of benchmark entries the user strictly
beats. -/
theorem computeBenchmarkBeatenCount_eq_countP (t : ScoreType) (u : NormalizedScore)
    (bs : List NormalizedScore) :
    computeBenchmarkBeatenCount t u bs
      = bs.countP (fun e => decide (compareScores t u e < 0)) := by
  simpa using beaten_foldl t u bs 0

/-! ### Claim theorems -/

/-- C1: for every discipline, user score and benchmark list,
`computeBenchmarkBeatenCount` returns exactly the number of benchmark
entries `e` with `compareScores t u e < 0`; entries comparing equal to the
user are not counted. -/
theorem claim_C1_beaten_count (t : ScoreType) (u : NormalizedScore)
    (bs : List NormalizedScore) :
    computeBenchmarkBeatenCount t u bs
      = (bs.filter (fun e => decide (compareScores t u e < 0))).length := by
  rw [computeBenchmarkBeatenCount_eq_countP, List.countP_eq_length_filter]

/-- C2: `pointsFromRank` is `41 - rank` on `[1, 40]`, `0` outside, takes
the documented values at 1, 40, 41 and 0, and is never negative. -/
theorem claim_C2_points_from_rank :
    (∀ rank : Int, 1 ≤ rank → rank ≤ 40 → pointsFromRank rank = 41 - rank) ∧
    (∀ rank : Int, rank < 1 ∨ 40 < rank → pointsFromRank rank = 0) ∧
    pointsFromRank 1 = 40 ∧ pointsFromRank 40 = 1 ∧
    pointsFromRank 41 = 0 ∧ pointsFromRank 0 = 0 ∧
    (∀ rank : Int, 0 ≤ pointsFromRank rank) := by
    refine ⟨?_, ?_, by decide, by decide, by decide, by decide, ?_⟩ <;>
      intro rank <;> simp only [pointsFromRank] <;> split_ifs <;> omega

/-- C2 witness: the pieces of the points mapping evaluated at rank 7 and
rank 55. -/
theorem claim_C2_points_from_rank_witness :
    pointsFromRank 7 = 41 - 7 ∧ pointsFromRank 55 = 0 :=
  ⟨claim_C2_points_from_rank.1 7 (by decide) (by decide),
   claim_C2_points_from_rank.2.1 55 (Or.inr (by decide))⟩

/-- C6: the comparator is antisymmetric (`compare t a b = -compare t b a`)
and reflexive-tying (`compare t a a = 0`) on all (same-discipline) score
pairs. -/
theorem claim_C6_comparator_consistency (t : ScoreType) (a b : NormalizedScore) :
    compareScores t a b = - compareScores t b a ∧ compareScores t a a = 0 :=
  ⟨compareScores_neg t a b, compareScores_self t a⟩

/-- The field the specification's rule table requires for each discipline
(spec section 4.1): TIME requires timeSeconds, REPS and TIME_REPS require
reps, LOAD requires loadKg. -/
def specRequiredField (t : ScoreType) (s : NormalizedScore) : Option Int :=
  match t with
  | .TIME => s.timeSeconds
  | .REPS => s.reps
  | .LOAD => s.loadKg
  | .TIME_REPS => s.reps

/-- C5: validation fails (with an error) exactly when the single field the
discipline requires is absent — no other field affects the outcome — and
in particular `validate(TIME, {reps:10})` fails while
`validate(TIME_REPS, {reps:10})` succeeds. -/
theorem claim_C5_validator (t : ScoreType) (s : NormalizedScore) :
    ((∃ msg, assertScoreMatchesType t s = .error msg) ↔ specRequiredField t s = none) ∧
    assertScoreMatchesType .TIME ⟨none, some 10, none, none⟩
      = .error "TIME krever timeSeconds" ∧
    assertScoreMatchesType .TIME_REPS ⟨none, some 10, none, none⟩ = .ok () := by
  refine ⟨?_, rfl, rfl⟩
  cases t <;>
    simp only [assertScoreMatchesType, specRequiredField] <;>
    split_ifs with h <;>
    simp_all [Option.isSome_iff_ne_none]

/-- C5 witness: validating a LOAD score with only reps fails, and a LOAD
score with a load succeeds. -/
theorem claim_C5_validator_witness :
    (∃ msg, assertScoreMatchesType .LOAD ⟨none, some 3, none, none⟩ = .error msg) ∧
    ¬ (∃ msg, assertScoreMatchesType .LOAD ⟨none, none, some 100, none⟩ = .error msg) :=
  ⟨(claim_C5_validator .LOAD ⟨none, some 3, none, none⟩).1.mpr rfl,
   fun h => by
    have h2 := (claim_C5_validator .LOAD ⟨none, none, some 100, none⟩).1.mp h
    simp [specRequiredField] at h2⟩

/-- C3 counterexample: two TIME_REPS scores with equal reps where exactly
one has a recorded timeSeconds, yet the score missing timeSeconds does NOT
compare strictly worse: when the recorded time equals the sentinel
`Number.MAX_SAFE_INTEGER = 9007199254740991`, the comparator returns 0 (a
tie), not a positive value. -/
theorem claim_C3_counterexample :
    (let a : NormalizedScore := ⟨none, some 100, none, none⟩
     let b : NormalizedScore := ⟨some 9007199254740991, some 100, none, none⟩
     jsNum a.reps = jsNum b.reps ∧ a.timeSeconds = none ∧ b.timeSeconds.isSome ∧
     compareScores .TIME_REPS a b = 0 ∧ ¬ 0 < compareScores .TIME_REPS a b) := by
  refine ⟨rfl, rfl, rfl, by decide, by decide⟩

/-- C3 (amended): TIME_REPS orders descending by reps; on an exact tie in
reps it orders ascending by timeSeconds with an absent timeSeconds
replaced by the sentinel `MAX_SAFE_INTEGER`; consequently, when reps are
equal, a score missing timeSeconds compares strictly worse than one whose
recorded timeSeconds is strictly below the sentinel (in particular
`compare(TIME_REPS, {reps:100}, {reps:100, timeSeconds:500}) > 0`). -/
theorem claim_C3_amended :
    (∀ a b : NormalizedScore, jsNum a.reps ≠ jsNum b.reps →
      compareScores .TIME_REPS a b = jsNum b.reps - jsNum a.reps) ∧
    (∀ a b : NormalizedScore, jsNum a.reps = jsNum b.reps →
      compareScores .TIME_REPS a b
        = a.timeSeconds.getD MAX_SAFE_INTEGER - b.timeSeconds.getD MAX_SAFE_INTEGER) ∧
    (∀ (a b : NormalizedScore) (tb : Int), jsNum a.reps = jsNum b.reps →
      a.timeSeconds = none → b.timeSeconds = some tb → tb < MAX_SAFE_INTEGER →
      0 < compareScores .TIME_REPS a b) ∧
    0 < compareScores .TIME_REPS ⟨none, some 100, none, none⟩
        ⟨some 500, some 100, none, none⟩ := by
  refine ⟨?_, ?_, ?_, by decide⟩
  · intro a b h
    simp only [compareScores]
    split_ifs <;> omega
  · intro a b h
    simp only [compareScores]
    split_ifs <;> omega
  · intro a b tb h ha hb htb
    simp only [compareScores, ha, hb]
    split_ifs <;> simp <;> omega

/-- C3 witness: with equal reps, a missing time loses the tie-break to a
recorded time of 500 (which is below the sentinel). -/
theorem claim_C3_amended_witness :
    0 < compareScores .TIME_REPS ⟨none, some 100, none, none⟩
        ⟨some 500, some 100, none, none⟩ :=
  claim_C3_amended.2.2.1 ⟨none, some 100, none, none⟩ ⟨some 500, some 100, none, none⟩
    500 rfl rfl rfl (by decide)

/-- C7: with the benchmark list fixed, a strictly better user score never
has a smaller beaten count. -/
theorem claim_C7_beaten_monotone (t : ScoreType) (u1 u2 : NormalizedScore)
    (bs : List NormalizedScore) (h : compareScores t u1 u2 < 0) :
    computeBenchmarkBeatenCount t u2 bs ≤ computeBenchmarkBeatenCount t u1 bs := by
  rw [computeBenchmarkBeatenCount_eq_countP, computeBenchmarkBeatenCount_eq_countP]
  refine List.countP_mono_left ?_
  intro e _ he
  simp only [decide_eq_true_eq] at he ⊢
  exact compareScores_lt_trans t h he

/-- C7 witness: a 600-second TIME score beats at least as many of a
single-entry benchmark as a 700-second one. -/
theorem claim_C7_beaten_monotone_witness :
    computeBenchmarkBeatenCount .TIME ⟨some 700, none, none, none⟩
        [⟨some 650, none, none, none⟩]
      ≤ computeBenchmarkBeatenCount .TIME ⟨some 600, none, none, none⟩
        [⟨some 650, none, none, none⟩] :=
  claim_C7_beaten_monotone .TIME ⟨some 600, none, none, none⟩
    ⟨some 700, none, none, none⟩ [⟨some 650, none, none, none⟩] (by decide)

/-- C9: against an empty benchmark list the beaten count is 0, the merged
rank is the degenerate N+1 = 1, and the resulting points value is 40. -/
theorem claim_C9_empty_benchmark (t : ScoreType) (u : NormalizedScore) :
    computeBenchmarkBeatenCount t u [] = 0 ∧
    computeRankAmongBenchmarkPlusUser t u [] = 1 ∧
    pointsFromRank (computeRankAmongBenchmarkPlusUser t u []) = 40 := by
  have hrank : computeRankAmongBenchmarkPlusUser t u [] = 1 := by
    simp [computeRankAmongBenchmarkPlusUser, List.findIdx?_cons, isSameScore_rfl]
  exact ⟨rfl, hrank, by rw [hrank]; decide⟩

/-- C4: the merged rank always lies in `[1, N+1]`, and whenever the user's
score cannot be located in the sorted merged sequence the function falls
back to returning the merged length `N+1`. -/
theorem claim_C4_rank_bounds (t : ScoreType) (u : NormalizedScore)
    (bs : List NormalizedScore) :
    1 ≤ computeRankAmongBenchmarkPlusUser t u bs ∧
    computeRankAmongBenchmarkPlusUser t u bs ≤ bs.length + 1 ∧
    (((bs ++ [u]).mergeSort (scoreLe t)).findIdx? (fun s => isSameScore s u) = none →
      computeRankAmongBenchmarkPlusUser t u bs = bs.length + 1) := by
  simp only [computeRankAmongBenchmarkPlusUser]
  cases hfi : ((bs ++ [u]).mergeSort (scoreLe t)).findIdx? (fun s => isSameScore s u) with
  | none => simp
  | some i =>
    have hlt : i < ((bs ++ [u]).mergeSort (scoreLe t)).length :=
      (List.findIdx?_eq_some_iff_findIdx_eq.mp hfi).1
    simp only [List.length_mergeSort, List.length_append, List.length_cons,
      List.length_nil] at hlt
    simp only [Option.some.injEq, reduceCtorEq, false_implies, and_true]
    omega

/-- C4 witness: rank bounds evaluated on a concrete two-entry TIME
benchmark. -/
theorem claim_C4_rank_bounds_witness :
    1 ≤ computeRankAmongBenchmarkPlusUser .TIME ⟨some 750, none, none, none⟩
        [⟨some 600, none, none, none⟩, ⟨some 800, none, none, none⟩] ∧
    computeRankAmongBenchmarkPlusUser .TIME ⟨some 750, none, none, none⟩
        [⟨some 600, none, none, none⟩, ⟨some 800, none, none, none⟩]
      ≤ [⟨some 600, none, none, none⟩, (⟨some 800, none, none, none⟩ : NormalizedScore)].length + 1 :=
  ⟨(claim_C4_rank_bounds .TIME ⟨some 750, none, none, none⟩
      [⟨some 600, none, none, none⟩, ⟨some 800, none, none, none⟩]).1,
   (claim_C4_rank_bounds .TIME ⟨some 750, none, none, none⟩
      [⟨some 600, none, none, none⟩, ⟨some 800, none, none, none⟩]).2.1⟩

/-! ### Season aggregation -/

/-- A workout for which the user has no stored result leaves the
accumulator untouched. -/
theorem summaryStep_skip (ur : List UserResult)
    (bm : String → List NormalizedScore) (acc : Int × List PerWorkoutEntry)
    (w : WorkoutMeta) (h : ur.find? (fun r => r.workoutId == w.id) = none) :
    summaryStep ur bm acc w = acc := by
  simp [summaryStep, h]

/-- The aggregation fold keeps `totalPoints` equal to the sum of the
points of the entries it has emitted, and emits one entry per workout the
user has a result for. -/
theorem summary_foldl_invariant (ur : List UserResult)
    (bm : String → List NormalizedScore) (ws : List WorkoutMeta) :
    ∀ acc : Int × List PerWorkoutEntry,
      (ws.foldl (summaryStep ur bm) acc).1
          - (((ws.foldl (summaryStep ur bm) acc).2.map (fun e => e.points)).sum)
        = acc.1 - ((acc.2.map (fun e => e.points)).sum) ∧
      (ws.foldl (summaryStep ur bm) acc).2.length
        = acc.2.length
            + ws.countP (fun w => (ur.find? (fun r => r.workoutId == w.id)).isSome) := by
  induction ws with
  | nil => intro acc; simp
  | cons w ws ih =>
    intro acc
    simp only [List.foldl_cons, List.countP_cons]
    cases hfind : ur.find? (fun r => r.workoutId == w.id) with
    | none =>
      rw [summaryStep_skip ur bm acc w hfind]
      simpa [hfind] using ih acc
    | some r =>
      have := ih (summaryStep ur bm acc w)
      simp only [summaryStep, hfind] at this ⊢
      obtain ⟨h1, h2⟩ := this
      refine ⟨?_, ?_⟩
      · rw [h1]
        simp [List.sum_append]
      · rw [h2]
        simp [List.length_append]
        omega

/-- C8: a workout in scope with no recorded user performance is skipped
entirely (it contributes neither a `perWorkout` entry nor points nor a
completed count, wherever it sits in the iteration order);
`completedWorkouts` always equals the length of `perWorkout`, which counts
exactly the workouts the user has a result for; and `totalPoints` is the
sum of the per-workout points in iteration order. -/
theorem claim_C8_aggregation_skip (ws1 ws2 : List WorkoutMeta) (w : WorkoutMeta)
    (ur : List UserResult) (bm : String → List NormalizedScore)
    (h : ur.find? (fun r => r.workoutId == w.id) = none) :
    summarizeSeason (ws1 ++ w :: ws2) ur bm = summarizeSeason (ws1 ++ ws2) ur bm ∧
    (∀ ws : List WorkoutMeta,
      (summarizeSeason ws ur bm).completedWorkouts
          = (summarizeSeason ws ur bm).perWorkout.length ∧
      (summarizeSeason ws ur bm).completedWorkouts
          = ws.countP (fun w2 => (ur.find? (fun r => r.workoutId == w2.id)).isSome) ∧
      (summarizeSeason ws ur bm).totalPoints
          = (((summarizeSeason ws ur bm).perWorkout.map (fun e => e.points)).sum)) := by
  constructor
  · simp only [summarizeSeason, List.foldl_append, List.foldl_cons]
    rw [summaryStep_skip ur bm _ w h]
  · intro ws
    have hinv := summary_foldl_invariant ur bm ws (0, [])
    refine ⟨rfl, ?_, ?_⟩
    · simpa [summarizeSeason] using hinv.2
    · have h3 := hinv.1
      simp only [summarizeSeason, List.map_nil, List.sum_nil] at h3 ⊢
      omega

/-- C8 witness: with three workouts in scope and a stored result for only
the first, the summary reports exactly one completed workout and a
one-entry `perWorkout`. -/
theorem claim_C8_aggregation_skip_witness :
    (summarizeSeason [⟨"w1", .REPS⟩, ⟨"w2", .REPS⟩, ⟨"w3", .REPS⟩]
        [⟨"w1", ⟨none, some 5, none, none⟩⟩] (fun _ => [])).completedWorkouts = 1 ∧
    (summarizeSeason [⟨"w1", .REPS⟩, ⟨"w2", .REPS⟩, ⟨"w3", .REPS⟩]
        [⟨"w1", ⟨none, some 5, none, none⟩⟩] (fun _ => [])).perWorkout.length = 1 := by
  have h := (claim_C8_aggregation_skip [⟨"w1", .REPS⟩] [⟨"w3", .REPS⟩] ⟨"w2", .REPS⟩
      [⟨"w1", ⟨none, some 5, none, none⟩⟩] (fun _ => []) (by rfl)).2
      [⟨"w1", .REPS⟩, ⟨"w2", .REPS⟩, ⟨"w3", .REPS⟩]
  refine ⟨?_, ?_⟩
  · rw [h.2.1]; rfl
  · rw [← h.1, h.2.1]; rfl

/-! ### Rank versus beaten count -/

/-- A sublist that ends in `u` and reaches past the unique occurrence of
`u` in `P ++ u :: S` must have all of its other elements inside `P`. -/
theorem sublist_of_append_singleton {α : Type} {u : α} :
    ∀ (P : List α) {l₁ S : List α}, l₁ ++ [u] <+ P ++ u :: S →
      u ∉ l₁ → u ∉ P → u ∉ S → l₁ <+ P := by
  intro P
  induction P with
  | nil =>
    intro l₁ S h hl₁ _ hS
    cases l₁ with
    | nil => exact List.nil_sublist []
    | cons a l₁ =>
      simp only [List.cons_append, List.nil_append] at h
      cases h with
      | cons _ h2 => exact absurd (h2.subset (by simp)) hS
      | cons₂ _ h2 => exact absurd (List.mem_cons_self _ _) hl₁
  | cons p P ih =>
    intro l₁ S h hl₁ hP hS
    have hPne : u ∉ P := fun hm => hP (List.mem_cons_of_mem p hm)
    cases l₁ with
    | nil => exact List.nil_sublist _
    | cons a l₁ =>
      simp only [List.cons_append] at h
      cases h with
      | cons _ h2 =>
        have hrec := @ih (a :: l₁) S h2 hl₁ hPne hS
        exact List.Sublist.cons p hrec
      | cons₂ _ h2 =>
        have hl₁' : u ∉ l₁ := fun hm => hl₁ (List.mem_cons_of_mem _ hm)
        exact List.Sublist.cons₂ _ (ih h2 hl₁' hPne hS)

/-- C10: when no benchmark entry is structurally identical to the user's
score, the merged rank equals `N - beatenCount + 1`: the user is placed
directly after every benchmark entry that is better than or tied with the
user's score. -/
theorem claim_C10_rank_beaten_relation (t : ScoreType) (u : NormalizedScore)
    (bs : List NormalizedScore) (h : ∀ e ∈ bs, isSameScore e u = false) :
    computeRankAmongBenchmarkPlusUser t u bs
      = bs.length - computeBenchmarkBeatenCount t u bs + 1 := by
  have htrans : ∀ a b c : NormalizedScore, scoreLe t a b → scoreLe t b c → scoreLe t a c :=
    fun a b c => scoreLe_trans t a b c
  have htotal : ∀ a b : NormalizedScore, scoreLe t a b || scoreLe t b a :=
    fun a b => scoreLe_total t a b
  set L := (bs ++ [u]).mergeSort (scoreLe t) with hLdef
  have perm : L ~ bs ++ [u] := List.mergeSort_perm (bs ++ [u]) (scoreLe t)
  have sorted : L.Pairwise (fun x y => scoreLe t x y) :=
    List.sorted_mergeSort htrans htotal (bs ++ [u])
  have hu_notin_bs : u ∉ bs := fun hm => by simpa [isSameScore_rfl] using h u hm
  have hcount_bs : bs.count u = 0 := List.count_eq_zero.mpr hu_notin_bs
  have hcount_L : L.count u = 1 := by
    rw [perm.count_eq]
    simp [List.count_append, hcount_bs]
  have hmemL : u ∈ L := by
    rw [perm.mem_iff]; simp
  obtain ⟨k, hk⟩ : ∃ k, L.findIdx? (fun s => isSameScore s u) = some k := by
    cases hfi : L.findIdx? (fun s => isSameScore s u) with
    | none =>
      have := List.findIdx?_eq_none_iff.mp hfi u hmemL
      simp [isSameScore_rfl] at this
    | some k => exact ⟨k, rfl⟩
  obtain ⟨hklt, hpk, -⟩ := List.findIdx?_eq_some_iff_getElem.mp hk
  have hLk : L[k] = u := isSameScore_iff.mp hpk
  set P := L.take k with hPdef
  set S := L.drop (k + 1) with hSdef
  have hdecomp : L = P ++ u :: S := by
    conv_lhs => rw [← List.take_append_drop k L]
    rw [List.drop_eq_getElem_cons hklt, hLk]
  have hPlen : P.length = k := by
    simp only [hPdef, List.length_take]
    omega
  have hcount_split : P.count u + (S.count u + 1) = 1 := by
    have hc := hcount_L
    rw [hdecomp] at hc
    simpa [List.count_append, List.count_cons_self] using hc
  have huP : u ∉ P := by
    intro hm
    have := List.count_pos_iff.mpr hm
    omega
  have huS : u ∉ S := by
    intro hm
    have := List.count_pos_iff.mpr hm
    omega
  have hsorted2 := sorted
  rw [hdecomp, List.pairwise_append] at hsorted2
  obtain ⟨-, hUS, hcross⟩ := hsorted2
  have hPu : ∀ e ∈ P, scoreLe t e u := fun e he => hcross e he u (List.mem_cons_self u S)
  have hSu : ∀ e ∈ S, scoreLe t u e := fun e he => (List.pairwise_cons.mp hUS).1 e he
  have hq_u : scoreLe t u u := by simp [scoreLe, compareScores_self]
  have hcountq_L : L.countP (fun e => scoreLe t e u)
      = bs.countP (fun e => scoreLe t e u) + 1 := by
    rw [perm.countP_eq]
    simp [List.countP_append, List.countP_cons, hq_u]
  have hqP : P.countP (fun e => scoreLe t e u) = k :=
    (List.countP_eq_length.mpr hPu).trans hPlen
  have hSq : ∀ v ∈ S, ¬ (scoreLe t v u = true) := by
    intro v hvS hq
    have hvne : v ≠ u := fun hvu => huS (hvu ▸ hvS)
    have hvL : v ∈ L := by
      rw [hdecomp]
      exact List.mem_append_right P (List.mem_cons_of_mem u hvS)
    have hvbs : v ∈ bs := by
      have hm := perm.mem_iff.mp hvL
      simp only [List.mem_append, List.mem_singleton] at hm
      exact hm.resolve_right hvne
    set m := bs.count v with hmdef
    have hm1 : 1 ≤ m := List.count_pos_iff.mpr hvbs
    have hmL : L.count v = m := by
      rw [perm.count_eq]
      have h0 : List.count v [u] = 0 := List.count_eq_zero_of_not_mem (by simp [hvne])
      simp [List.count_append, h0]
    have hrep_bs : List.replicate m v <+ bs :=
      List.le_count_iff_replicate_sublist.mp (Nat.le_refl m)
    have hsub_input : List.replicate m v ++ [u] <+ bs ++ [u] :=
      List.Sublist.append hrep_bs (List.Sublist.refl [u])
    have hpair : (List.replicate m v ++ [u]).Pairwise (fun x y => scoreLe t x y) := by
      rw [List.pairwise_append]
      refine ⟨?_, by simp, ?_⟩
      · rw [List.pairwise_replicate]
        right
        simp [scoreLe, compareScores_self]
      · intro x hx y hy
        rw [List.eq_of_mem_replicate hx]
        rw [List.mem_singleton] at hy
        subst hy
        exact hq
    have hsub_L : List.replicate m v ++ [u] <+ L :=
      List.sublist_mergeSort htrans htotal hpair hsub_input
    rw [hdecomp] at hsub_L
    have hrepP : List.replicate m v <+ P :=
      sublist_of_append_singleton P hsub_L
        (fun hm => hvne ((List.eq_of_mem_replicate hm).symm)) huP huS
    have hcountP_ge : m ≤ P.count v := List.le_count_iff_replicate_sublist.mpr hrepP
    have hcountS_ge : 1 ≤ S.count v := List.count_pos_iff.mpr hvS
    have hsplitv : L.count v = P.count v + S.count v := by
      rw [hdecomp]
      have hcu : List.count v (u :: S) = S.count v := by
        rw [List.count_cons]
        simp [hvne, Ne.symm hvne]
      simp [List.count_append, hcu]
    omega
  have hqS : S.countP (fun e => scoreLe t e u) = 0 := List.countP_eq_zero.mpr hSq
  have hcountq_L2 : L.countP (fun e => scoreLe t e u) = k + 1 := by
    rw [hdecomp]
    simp [List.countP_append, List.countP_cons, hq_u, hqP, hqS]
  have hsplit_len : bs.length
      = bs.countP (fun e => decide (compareScores t u e < 0))
        + bs.countP (fun e => scoreLe t e u) := by
    rw [List.length_eq_countP_add_countP (p := fun e => decide (compareScores t u e < 0))]
    congr 1
    refine List.countP_congr ?_
    intro e _
    have hneg := compareScores_neg t e u
    simp only [scoreLe, decide_eq_true_eq]
    omega
  have hrank : computeRankAmongBenchmarkPlusUser t u bs = k + 1 := by
    simp only [computeRankAmongBenchmarkPlusUser]
    rw [← hLdef, hk]
  have hbeaten := computeBenchmarkBeatenCount_eq_countP t u bs
  have hle : bs.countP (fun e => decide (compareScores t u e < 0)) ≤ bs.length :=
    List.countP_le_length _
  omega

/-- C10 witness: a REPS user score strictly between two benchmark entries
(none identical to it) lands at rank N - beaten + 1 = 2. -/
theorem claim_C10_rank_beaten_relation_witness :
    computeRankAmongBenchmarkPlusUser .REPS ⟨none, some 5, none, none⟩
        [⟨none, some 7, none, none⟩, ⟨none, some 3, none, none⟩]
      = [⟨none, some 7, none, none⟩, (⟨none, some 3, none, none⟩ : NormalizedScore)].length
          - computeBenchmarkBeatenCount .REPS ⟨none, some 5, none, none⟩
              [⟨none, some 7, none, none⟩, ⟨none, some 3, none, none⟩] + 1 :=
  claim_C10_rank_beaten_relation .REPS ⟨none, some 5, none, none⟩
    [⟨none, some 7, none, none⟩, ⟨none, some 3, none, none⟩] (by decide)

end CFBench
